import Mathlib

/-!
Verification of the core evaluator of the lazy configuration-language
interpreter in `src/libexpr/eval.cc`.

The development shallowly embeds the evaluator as a fuel-indexed, purely
functional interpreter:

* `Expr` / `Pattern` mirror the opaque AST forms the dispatcher matches on
  (`matchVar`, `matchInt`, ..., `matchOpHasAttr`).  `let`-expressions are not a
  dispatcher form; the parser desugars `let binds in body` into a recursive
  attribute set selected at a reserved key, and the embedding follows that
  desugaring when concrete programs are written down.
* `Value`, `Env`, `Frame`, `Entry` mirror the tagged value union and the
  environment chain.  The C++ evaluator creates thunks eagerly and stores them
  in mutable environment bindings; the pure embedding stores, for bindings
  whose thunk must close over the very environment being constructed
  (`rec` bindings and pattern defaults), the expression as an `Entry.defer`
  and materialises the thunk at lookup time.  Without memoization this is
  observationally the same evaluation, replayed on each demand; memoization
  and in-place thunk overwrite are modelled separately at the end of the file
  (the cell-level model of `forceValue`).
* Machine arithmetic on `integer` (a C `int`) is modelled by `Int`; no claim
  exercises overflow.  `Bindings` (an `ATermMap`) is modelled as an
  association list kept sorted by key: the specification directs
  implementations to treat attribute iteration as canonically ordered by key.
  A string's context (`PathSet`, an ordered set) is modelled as a
  duplicate-free list; only membership and emptiness are observable in the
  claims.  The store collaborators (`addToStore`,
  `computeStorePathForPath`, memoized through `srcToStore`) are modelled by a
  single function parameter `store : String → String`, justified by the
  specified idempotence of store insertion.
* All evaluator functions are indexed by fuel and every recursive call
  consumes one unit, so the definitions are structurally recursive and
  compute by kernel reduction.  `Res.outOfFuel` signals exhaustion; the C++
  original recurses on the host stack instead.
* Errors are modelled structurally (one `Err` constructor per throw site,
  the C++ exception class noted on each).  The contextual prefixes added by
  `addErrorPrefix` around selection and file evaluation, the cooperative
  `checkInterrupt`, the statistics counters and the deepest-stack marker are
  diagnostic-only and not modelled; `evalFile`, `autoCallFunction`,
  `strictForceValue`, `forceStringNoCtx`, `coerceToPath` and the value-level
  `isDerivation` are not exercised by any claim and are left out.
-/

namespace NixEval

/-- Interned symbols (`Sym` / `ATerm` names in the source) are modelled as
strings. -/
abbrev Sym := String

/-- Source positions, only carried into `AssertionError`. -/
abbrev Pos := Nat

mutual

/-- Function patterns: `matchVarPat` and `matchAttrsPat` (formals with
optional defaults per `matchFormal` / `matchDefaultValue`, an ellipsis flag,
and an optional `@`-binding, `sNoAlias` becoming `none`). -/
inductive Pattern where
  | varPat (name : Sym)
  | attrsPat (formals : List (Sym × Option Expr)) (ellipsis : Bool) (atName : Option Sym)

/-- The AST forms recognised by `EvalState::eval`'s dispatch chain. -/
inductive Expr where
  | var (name : Sym)
  | int (n : Int)
  | str (s : String)
  | path (p : String)
  | attrs (binds : List (Sym × Expr))
  | recAttrs (rbnds nrbnds : List (Sym × Expr))
  | select (e : Expr) (name : Sym)
  | lam (pat : Pattern) (body : Expr) (pos : Pos)
  | call (fn : Expr) (arg : Expr)
  | withE (attrsE : Expr) (body : Expr) (pos : Pos)
  | list (es : List Expr)
  | opEq (e1 e2 : Expr)
  | opNEq (e1 e2 : Expr)
  | opConcat (e1 e2 : Expr)
  | concatStrings (es : List Expr)
  | ifE (e1 e2 e3 : Expr)
  | assertE (e1 e2 : Expr) (pos : Pos)
  | opNot (e1 : Expr)
  | opImpl (e1 e2 : Expr)
  | opAnd (e1 e2 : Expr)
  | opOr (e1 e2 : Expr)
  | opUpdate (e1 e2 : Expr)
  | opHasAttr (e1 : Expr) (name : Sym)

end

/-- Identifiers of registered primops.  `createBaseEnv` lives outside
`src/`; the spec describes registration via `addPrimOp(name, arity, fn)` and
its scenario 1 exercises integer addition through a primop, so a small
representative registry is modelled from the spec. -/
inductive PrimOpId where
  | add
  | sub
  | substring
  deriving DecidableEq

/-- Arity registered with each primop (`v.primOp.arity`). -/
def arityOf : PrimOpId → Nat
  | .add => 2
  | .sub => 2
  | .substring => 3

mutual

/-- One environment binding.  `Entry.val` is a value stored in the binding
(the eager case); `Entry.defer` records a binding whose thunk closes over the
environment headed by the frame containing it (`rec` bindings and pattern
defaults; the C++ code builds those thunks eagerly against the
partially-constructed `env2`). -/
inductive Entry where
  | val (v : Value)
  | defer (e : Expr)

/-- An environment frame: either ordinary bindings or a `with` frame, whose
only binding is the distinguished `sWith` key holding the attribute set
(user identifiers never equal `sWith`, so the two kinds are kept apart). -/
inductive Frame where
  | plain (entries : List (Sym × Entry))
  | withF (attrs : List (Sym × Value))

/-- The environment chain (`Env::up`). -/
inductive Env where
  | nil
  | cons (f : Frame) (up : Env)

/-- The tagged value union of `struct Value`. -/
inductive Value where
  | int (n : Int)
  | bool (b : Bool)
  | null
  | str (s : String) (context : List String)
  | path (p : String)
  | attrs (as : List (Sym × Value))
  | list (es : List Value)
  | lambda (env : Env) (pat : Pattern) (body : Expr)
  | primOp (pid : PrimOpId)
  | primOpApp (left : Value) (right : Value) (argsLeft : Nat)
  | thunk (env : Env) (e : Expr)
  | app (left : Value) (right : Value)
  | copy (v : Value)
  | blackhole

end

/-- Value type tags, mirroring the `ValueType` enumeration. -/
inductive Tag where
  | tInt | tBool | tString | tPath | tNull | tAttrs | tList
  | tLambda | tPrimOp | tPrimOpApp | tThunk | tApp | tCopy | tBlackhole
  deriving DecidableEq

/-- The tag of a value (`v.type`). -/
def Value.tag : Value → Tag
  | .int _ => .tInt
  | .bool _ => .tBool
  | .null => .tNull
  | .str _ _ => .tString
  | .path _ => .tPath
  | .attrs _ => .tAttrs
  | .list _ => .tList
  | .lambda .. => .tLambda
  | .primOp _ => .tPrimOp
  | .primOpApp .. => .tPrimOpApp
  | .thunk .. => .tThunk
  | .app .. => .tApp
  | .copy _ => .tCopy
  | .blackhole => .tBlackhole

/-- Is the value a `Path`? (`vStr.type == tPath`). -/
def Value.isPath : Value → Bool
  | .path _ => true
  | _ => false

/-- Is the value a function (`tLambda`, `tPrimOp` or `tPrimOpApp`)? -/
def Value.isFunction : Value → Bool
  | .lambda .. => true
  | .primOp _ => true
  | .primOpApp .. => true
  | _ => false

/-- Is the value an empty list? (the separator test
`elems[n].type == tList && elems[n].list.length == 0` of `coerceToString`). -/
def Value.isEmptyList : Value → Bool
  | .list [] => true
  | _ => false

/-- Errors thrown by the evaluator.  Each constructor corresponds to one
throw site; the C++ exception class is noted per constructor. -/
inductive Err where
  /-- `Error`: `undefined variable ...` in `lookupVar`. -/
  | undefinedVariable (name : Sym)
  /-- `EvalError`: `attribute ... missing` in the `Select` rule. -/
  | attrMissing (name : Sym)
  /-- `EvalError`: `a string that refers to a store path cannot be appended
  to a path` in the `ConcatStrings` rule; carries the concatenated string. -/
  | pathContext (s : String)
  /-- `AssertionError`: `assertion failed at ...`. -/
  | assertionFailed (pos : Pos)
  /-- `TypeError`: `attempt to call something which is neither a function nor
  a primop ...` in `callFunction`. -/
  | notAFunction (t : Tag)
  /-- `TypeError`: `the argument named ... required by the function is
  missing` in `callFunction` (the spec's `MissingArgument`). -/
  | missingArgument (name : Sym)
  /-- `TypeError`: `function called with unexpected argument`. -/
  | unexpectedArgument
  /-- `TypeError`: `value is ... while ... was expected` from the typed
  demands (`forceAttrs`, `forceList`, `forceInt`, `evalBool`, ...). -/
  | typeExpected (expected : String) (got : Tag)
  /-- `EvalError`: `infinite recursion encountered` in `forceValue`. -/
  | infiniteRecursion
  /-- `TypeError`: `cannot coerce an attribute set (except a derivation) to a
  string`. -/
  | coerceAttrsNoOutPath
  /-- `TypeError`: `cannot coerce ... to a string`. -/
  | cannotCoerce (t : Tag)
  /-- `EvalError`: `file names are not allowed to end in .drv` in the
  path-copying branch of `coerceToString`. -/
  | drvPathForbidden
  /-- `Error`: `cannot compare ... with ...`, the `eqValues` default case. -/
  | cannotCompare (t1 t2 : Tag)
  /-- The `OpUpdate` rule dereferences `v.attrs` without a preceding
  `forceAttrs`; on a non-attribute-set operand the C++ behaviour is
  undefined.  Modelled as a distinct outcome; no claim reaches it. -/
  | updateNonAttrs (t : Tag)
  /-- Models the `assert(primOp->type == tPrimOp)` in `callFunction` and an
  arity-mismatched primop invocation; unreachable through the application
  machinery. -/
  | badPrimOp
  deriving DecidableEq

/-- Evaluation outcomes.  `outOfFuel` replaces the host-stack recursion of
the original: a computation that exhausts every fuel bound corresponds to a
C++ run that never returns (it exhausts the host stack). -/
inductive Res (α : Type) where
  | ok (a : α)
  | error (e : Err)
  | outOfFuel

instance : Monad Res where
  pure := .ok
  bind := fun r f =>
    match r with
    | .ok a => f a
    | .error e => .error e
    | .outOfFuel => .outOfFuel

@[simp] theorem Res.bind_ok {α β : Type} (a : α) (g : α → Res β) :
    (Res.ok a >>= g) = g a := rfl

@[simp] theorem Res.bind_error {α β : Type} (e : Err) (g : α → Res β) :
    (Res.error e >>= g) = Res.error e := rfl

@[simp] theorem Res.bind_outOfFuel {α β : Type} (g : α → Res β) :
    (Res.outOfFuel >>= g : Res β) = Res.outOfFuel := rfl

@[simp] theorem Res.pure_def {α : Type} (a : α) : (pure a : Res α) = Res.ok a := rfl

/-- First association for `name` (`Bindings::find`). -/
def findA {α : Type} (name : Sym) : List (Sym × α) → Option α
  | [] => none
  | (m, v) :: rest => if name = m then some v else findA name rest

/-- Byte-wise lexicographic comparison of symbols, the deterministic
canonical key order of the modelled `Bindings` map. -/
def symLtGo : List Char → List Char → Bool
  | [], [] => false
  | [], _ :: _ => true
  | _ :: _, [] => false
  | c1 :: r1, c2 :: r2 =>
    if c1.toNat < c2.toNat then true
    else if c2.toNat < c1.toNat then false
    else symLtGo r1 r2

/-- Strict order on symbols (see `symLtGo`). -/
def symLt (s1 s2 : Sym) : Bool := symLtGo s1.data s2.data

/-- Insert-or-replace keeping the list sorted by key
(`(*v.attrs)[name] = ...`; the map's canonical iteration order). -/
def insertA {α : Type} (name : Sym) (v : α) : List (Sym × α) → List (Sym × α)
  | [] => [(name, v)]
  | (m, w) :: rest =>
    if name = m then (name, v) :: rest
    else if symLt name m then (name, v) :: (m, w) :: rest
    else (m, w) :: insertA name v rest

/-- Typed demand for a Boolean (`evalBool` after `eval`). -/
def asBool : Value → Res Bool
  | .bool b => .ok b
  | w => .error (.typeExpected "a Boolean" w.tag)

/-- Typed demand for an integer (`forceInt` after forcing). -/
def asInt : Value → Res Int
  | .int n => .ok n
  | w => .error (.typeExpected "an integer" w.tag)

/-- Typed demand for an attribute set (`forceAttrs` after forcing). -/
def asAttrs : Value → Res (List (Sym × Value))
  | .attrs as => .ok as
  | w => .error (.typeExpected "an attribute set" w.tag)

/-- Typed demand for a list (`forceList` after forcing). -/
def asList : Value → Res (List Value)
  | .list es => .ok es
  | w => .error (.typeExpected "a list" w.tag)

/-- Typed demand for a string (`forceString` after forcing). -/
def asStr : Value → Res (String × List String)
  | .str s ctx => .ok (s, ctx)
  | w => .error (.typeExpected "a string" w.tag)

/-- `PathSet::insert`: add a path to a context if not already present. -/
def insertCtx (p : String) (ctx : List String) : List String :=
  if p ∈ ctx then ctx else ctx ++ [p]

/-- Character-list equality (via code points). -/
def charsEq : List Char → List Char → Bool
  | [], [] => true
  | c :: r, d :: s => (c.toNat == d.toNat) && charsEq r s
  | _, _ => false

/-- Split a character list at every `/`. -/
def splitSlash : List Char → List (List Char)
  | [] => [[]]
  | c :: rest =>
    let r := splitSlash rest
    if c.toNat == '/'.toNat then [] :: r
    else
      match r with
      | s :: ss => (c :: s) :: ss
      | [] => [[c]]

/-- Interleave `/` between segments. -/
def joinSlash : List (List Char) → List Char
  | [] => []
  | [s] => s
  | s :: t :: rest => s ++ '/' :: joinSlash (t :: rest)

/-- Lexical canonicalisation of an absolute path (`canonPath` without symlink
resolution): empty and `.` segments are dropped, `..` removes the previous
segment.  The source throws on a non-absolute path; path literals are
absolute by parsing, and no claim supplies a relative path. -/
def canonPath (p : String) : String :=
  String.mk ('/' :: joinSlash
    ((splitSlash p.data).foldl
      (fun acc seg =>
        if seg.isEmpty || charsEq seg ['.'] then acc
        else if charsEq seg ['.', '.'] then acc.dropLast
        else acc ++ [seg]) []))

/-- `nix::isDerivation` on paths: file name ends in the `.drv` extension. -/
def hasDrvExt (p : String) : Bool :=
  charsEq (p.data.reverse.take 4) ['v', 'r', 'd', '.']

/-- The string concatenation loop of `coerceToString` on lists: every element
string is followed by a single space, except the last element and except an
element that is an empty list (the flag paired with each string; the source
guards the space with `n < v.list.length - 1 && (elems[n].type != tList ||
elems[n].list.length != 0)`). -/
def joinParts : List (String × Bool) → String
  | [] => ""
  | [(s, _)] => s
  | (s, emptyL) :: p :: rest =>
    s ++ (if emptyL then "" else " ") ++ joinParts (p :: rest)

/-- Walk a `PrimOpApp` chain to its root primop
(`while (primOp->type == tPrimOpApp) primOp = primOp->primOpApp.left`). -/
def chainRoot : Value → Option PrimOpId
  | .primOp pid => some pid
  | .primOpApp l _ _ => chainRoot l
  | _ => none

/-- Gather the accumulated arguments of a `PrimOpApp` chain, leftmost-supplied
first (the source fills `vArgs` from the back while walking `left` links). -/
def gatherGo : Value → List Value → List Value
  | .primOpApp l r _, acc => gatherGo l (r :: acc)
  | _, acc => acc

/-- `argsLeft` of a primop application target: the registered arity for a
root `PrimOp`, the stored countdown for a `PrimOpApp`. -/
def primArgsLeft : Value → Option Nat
  | .primOp pid => some (arityOf pid)
  | .primOpApp _ _ n => some n
  | _ => none

/-- Materialise a frame's entries as attribute bindings: `rec` aliases the
environment's bindings as the attribute set value, deferred entries becoming
thunks over `env2`. -/
def entriesToBindings (env2 : Env) (entries : List (Sym × Entry)) :
    List (Sym × Value) :=
  entries.map fun p =>
    (p.1, match p.2 with
          | .val v => v
          | .defer e => Value.thunk env2 e)

/-- Shallow clone with sharing (`cloneAttrs`: `mkCopy` per binding). -/
def cloneAttrs (as : List (Sym × Value)) : List (Sym × Value) :=
  as.map fun p => (p.1, Value.copy p.2)

/-- The formal-argument loop of `callFunction`: for each formal, a matching
actual is bound through a `Copy` indirection (counting it against the
ellipsis check), a missing actual falls back to its default bound as a
deferred entry (a thunk over `env2`), and a missing actual without default
fails with the missing-argument error. -/
def bindFormals :
    List (Sym × Option Expr) → List (Sym × Value) →
    List (Sym × Entry) → Nat → Res (List (Sym × Entry) × Nat)
  | [], _, acc, used => .ok (acc, used)
  | (name, dflt) :: rest, argAs, acc, used =>
    match findA name argAs with
    | some av => bindFormals rest argAs (insertA name (Entry.val (.copy av)) acc) (used + 1)
    | none =>
      match dflt with
      | some de => bindFormals rest argAs (insertA name (Entry.defer de) acc) used
      | none => .error (.missingArgument name)

/-- First regular binding for `name`, walking the environment upward
(the first loop of `lookupVar`).  A deferred entry yields its thunk over the
environment headed by its frame. -/
def lookupRegular : Env → Sym → Option Value
  | .nil, _ => none
  | .cons (.plain entries) up, name =>
    match findA name entries with
    | some (.val v) => some v
    | some (.defer e) => some (.thunk (.cons (.plain entries) up) e)
    | none => lookupRegular up name
  | .cons (.withF _) up, name => lookupRegular up name

/-- `lookupWith`: recurse to the enclosing environment first, then consult
this frame's `with` attribute set, so the outermost `with` wins. -/
def lookupWith : Env → Sym → Option Value
  | .nil, _ => none
  | .cons fr up, name =>
    match lookupWith up name with
    | some v => some v
    | none =>
      match fr with
      | .withF as => findA name as
      | .plain _ => none

/-- `lookupVar`: regular bindings first, then `with` frames (outermost
first), otherwise the undefined-variable error. -/
def lookupVar (env : Env) (name : Sym) : Res Value :=
  match lookupRegular env name with
  | some v => .ok v
  | none =>
    match lookupWith env name with
    | some v => .ok v
    | none => .error (.undefinedVariable name)

section Evaluator

variable (store : String → String)

mutual

/-- `EvalState::eval (Env & env, Expr e, Value & v)`: one reduction rule per
AST form, in the dispatch order of the source.  Boolean subterms are demanded
via `eval` followed by `asBool` (the inlined `evalBool`); attribute-set and
list demands force and then check the tag (`forceAttrs` / `forceList`). -/
def eval (fuel : Nat) (env : Env) (e : Expr) : Res Value :=
  match fuel with
  | 0 => .outOfFuel
  | f + 1 =>
    match e with
    | .var name => do
      let v ← lookupVar env name
      forceValue f v
    | .int n => .ok (.int n)
    | .str s => .ok (.str s [])
    | .path p => .ok (.path p)
    | .attrs binds =>
      .ok (.attrs (binds.foldl (fun acc p => insertA p.1 (Value.thunk env p.2) acc) []))
    | .recAttrs rbnds nrbnds =>
      let entries :=
        nrbnds.foldl (fun acc p => insertA p.1 (Entry.val (.thunk env p.2)) acc)
          (rbnds.foldl (fun acc p => insertA p.1 (Entry.defer p.2) acc) [])
      .ok (.attrs (entriesToBindings (Env.cons (.plain entries) env) entries))
    | .select e2 name => do
      let v2 ← eval f env e2
      let w ← forceValue f v2
      let as ← asAttrs w
      match findA name as with
      | none => .error (.attrMissing name)
      | some av => forceValue f av
    | .lam pat body _pos => .ok (.lambda env pat body)
    | .call fn arg => do
      let vFun ← eval f env fn
      callFunction f vFun (.thunk env arg)
    | .withE attrsE body _pos => do
      let va ← eval f env attrsE
      let w ← forceValue f va
      let as ← asAttrs w
      eval f (Env.cons (.withF as) env) body
    | .list es => .ok (.list (es.map fun e2 => Value.thunk env e2))
    | .opEq e1 e2 => do
      let v1 ← eval f env e1
      let v2 ← eval f env e2
      let b ← eqValues f v1 v2
      pure (.bool b)
    | .opNEq e1 e2 => do
      let v1 ← eval f env e1
      let v2 ← eval f env e2
      let b ← eqValues f v1 v2
      pure (.bool !b)
    | .opConcat e1 e2 => do
      let v1 ← eval f env e1
      let w1 ← forceValue f v1
      let l1 ← asList w1
      let v2 ← eval f env e2
      let w2 ← forceValue f v2
      let l2 ← asList w2
      pure (.list (l1 ++ l2))
    | .concatStrings es =>
      match es with
      | [] => .ok (.str "" [])
      | e0 :: rest => do
        let v0 ← eval f env e0
        let isPath := v0.isPath
        let sc0 ← coerceToString f v0 [] false (!isPath)
        let sc ← rest.foldlM
          (fun acc e2 => do
            let v ← eval f env e2
            let sc2 ← coerceToString f v acc.2 false (!isPath)
            pure (acc.1 ++ sc2.1, sc2.2))
          (sc0.1, sc0.2)
        if isPath then
          if sc.2 = [] then .ok (.path sc.1) else .error (.pathContext sc.1)
        else .ok (.str sc.1 sc.2)
    | .ifE e1 e2 e3 => do
      let v1 ← eval f env e1
      let b ← asBool v1
      eval f env (if b then e2 else e3)
    | .assertE e1 e2 pos => do
      let v1 ← eval f env e1
      let b ← asBool v1
      if b then eval f env e2 else .error (.assertionFailed pos)
    | .opNot e1 => do
      let v1 ← eval f env e1
      let b ← asBool v1
      pure (.bool !b)
    | .opImpl e1 e2 => do
      let v1 ← eval f env e1
      let b1 ← asBool v1
      if b1 then do
        let v2 ← eval f env e2
        let b2 ← asBool v2
        pure (.bool b2)
      else pure (.bool true)
    | .opAnd e1 e2 => do
      let v1 ← eval f env e1
      let b1 ← asBool v1
      if b1 then do
        let v2 ← eval f env e2
        let b2 ← asBool v2
        pure (.bool b2)
      else pure (.bool false)
    | .opOr e1 e2 => do
      let v1 ← eval f env e1
      let b1 ← asBool v1
      if b1 then pure (.bool true)
      else do
        let v2 ← eval f env e2
        let b2 ← asBool v2
        pure (.bool b2)
    | .opUpdate e1 e2 => do
      let v1 ← eval f env e1
      match v1 with
      | .attrs as1 => do
        let v2 ← eval f env e2
        match v2 with
        | .attrs as2 =>
          .ok (.attrs (as2.foldl (fun acc p => insertA p.1 p.2 acc) (cloneAttrs as1)))
        | w => .error (.updateNonAttrs w.tag)
      | w => .error (.updateNonAttrs w.tag)
    | .opHasAttr e1 name => do
      let v1 ← eval f env e1
      let w ← forceValue f v1
      let as ← asAttrs w
      pure (.bool (findA name as).isSome)

/-- `EvalState::forceValue`: thunks evaluate their `(env, expr)` pair, `Copy`
indirections force their target, delayed `App`s call the function, a
`Blackhole` is the infinite-recursion error, and every other value is
already in weak head normal form and returned unchanged (without consuming
fuel). -/
def forceValue (fuel : Nat) (v : Value) : Res Value :=
  match v with
  | .thunk env e =>
    match fuel with
    | 0 => .outOfFuel
    | f + 1 => eval f env e
  | .copy v' =>
    match fuel with
    | 0 => .outOfFuel
    | f + 1 => forceValue f v'
  | .app l r =>
    match fuel with
    | 0 => .outOfFuel
    | f + 1 => callFunction f l r
  | .blackhole => .error .infiniteRecursion
  | w => .ok w

/-- `EvalState::callFunction`.  For a primop target with more than one
argument left, a fresh `PrimOpApp` is built with the countdown decremented;
with exactly one left, the chain is walked to its root and the primop is
invoked on the gathered arguments (leftmost-supplied first).  A lambda with a
plain pattern binds its argument directly; an attribute-set pattern demands
the argument as an attribute set, binds the optional `@`-name, processes the
formals via `bindFormals`, and enforces the ellipsis check.  Anything else is
a type error. -/
def callFunction (fuel : Nat) (fn arg : Value) : Res Value :=
  match fuel with
  | 0 => .outOfFuel
  | f + 1 =>
    let primBranch := fun (argsLeft : Nat) =>
      if argsLeft = 1 then
        match chainRoot fn with
        | some pid => applyPrimOp f pid (gatherGo fn [arg])
        | none => .error .badPrimOp
      else Res.ok (.primOpApp fn arg (argsLeft - 1))
    match fn with
    | .primOp pid => primBranch (arityOf pid)
    | .primOpApp _ _ n => primBranch n
    | .lambda fenv pat body =>
      match pat with
      | .varPat name =>
        eval f (Env.cons (.plain [(name, Entry.val arg)]) fenv) body
      | .attrsPat formals ellipsis atName => do
        let w ← forceValue f arg
        let argAs ← asAttrs w
        let entries0 : List (Sym × Entry) :=
          match atName with
          | some n => [(n, Entry.val w)]
          | none => []
        let eu ← bindFormals formals argAs entries0 0
        if !ellipsis && eu.2 ≠ argAs.length then .error .unexpectedArgument
        else eval f (Env.cons (.plain eu.1) fenv) body
    | w => .error (.notAFunction w.tag)

/-- Invocation of a registered primop on its gathered argument vector.
`createBaseEnv` registering the primops is outside `src/`; the bodies are
modelled from the spec (scenario 1's integer addition via a primop, plus a
second binary and a ternary primop to exercise the currying machinery). -/
def applyPrimOp (fuel : Nat) (pid : PrimOpId) (args : List Value) : Res Value :=
  match fuel with
  | 0 => .outOfFuel
  | f + 1 =>
    match pid, args with
    | .add, [a1, a2] => do
      let w1 ← forceValue f a1
      let n1 ← asInt w1
      let w2 ← forceValue f a2
      let n2 ← asInt w2
      pure (.int (n1 + n2))
    | .sub, [a1, a2] => do
      let w1 ← forceValue f a1
      let n1 ← asInt w1
      let w2 ← forceValue f a2
      let n2 ← asInt w2
      pure (.int (n1 - n2))
    | .substring, [a1, a2, a3] => do
      let w1 ← forceValue f a1
      let start ← asInt w1
      let w2 ← forceValue f a2
      let len ← asInt w2
      let w3 ← forceValue f a3
      let sc ← asStr w3
      pure (.str ((sc.1.drop start.toNat).take len.toNat) sc.2)
    | _, _ => .error .badPrimOp

/-- `EvalState::coerceToString (v, context, coerceMore, copyToStore)`.
Strings contribute their context; paths are canonicalised and, only when
`copyToStore` is set, checked against the `.drv` extension and mapped through
the store (the result path joining the context); attribute sets coerce via
their `outPath`; with `coerceMore`, Booleans, `null`, integers and lists are
also admitted, a list concatenating its elements' coercions via `joinParts`
(each element is forced first, as the source's in-place force makes the
separator test see the forced element). -/
def coerceToString (fuel : Nat) (v : Value) (ctx : List String)
    (coerceMore copyToStore : Bool) : Res (String × List String) :=
  match fuel with
  | 0 => .outOfFuel
  | f + 1 => do
    let w ← forceValue f v
    match w with
    | .str s sctx => .ok (s, sctx.foldl (fun c p => insertCtx p c) ctx)
    | .path p =>
      if !copyToStore then .ok (canonPath p, ctx)
      else if hasDrvExt (canonPath p) then .error .drvPathForbidden
      else .ok (store (canonPath p), insertCtx (store (canonPath p)) ctx)
    | .attrs as =>
      match findA "outPath" as with
      | none => .error .coerceAttrsNoOutPath
      | some av => coerceToString f av ctx coerceMore copyToStore
    | .bool b =>
      if coerceMore then .ok ((if b then "1" else ""), ctx)
      else .error (.cannotCoerce Tag.tBool)
    | .int n =>
      if coerceMore then .ok (toString n, ctx)
      else .error (.cannotCoerce Tag.tInt)
    | .null =>
      if coerceMore then .ok ("", ctx)
      else .error (.cannotCoerce Tag.tNull)
    | .list es =>
      if coerceMore then do
        let pc ← es.foldlM
          (fun acc e2 => do
            let we ← forceValue f e2
            let sc ← coerceToString f we acc.2 coerceMore copyToStore
            pure (acc.1 ++ [(sc.1, we.isEmptyList)], sc.2))
          ([], ctx)
        pure (joinParts pc.1, pc.2)
      else .error (.cannotCoerce Tag.tList)
    | w2 => .error (.cannotCoerce w2.tag)

/-- `EvalState::eqValues`: force both sides; distinct tags are unequal;
scalars compare by content (string contexts ignored); lists and attribute
sets compare by length and element-wise recursion, the attribute iteration
comparing only the attribute values (`i->second` against `j->second`);
functions are never equal; remaining tags are incomparable. -/
def eqValues (fuel : Nat) (v1 v2 : Value) : Res Bool :=
  match fuel with
  | 0 => .outOfFuel
  | f + 1 => do
    let w1 ← forceValue f v1
    let w2 ← forceValue f v2
    if w1.tag = w2.tag then
      match w1, w2 with
      | .int n1, .int n2 => pure (decide (n1 = n2))
      | .bool b1, .bool b2 => pure (b1 == b2)
      | .str s1 _, .str s2 _ => pure (s1 == s2)
      | .path p1, .path p2 => pure (p1 == p2)
      | .null, .null => pure true
      | .list es1, .list es2 =>
        if es1.length = es2.length then
          (es1.zip es2).allM fun pq => eqValues f pq.1 pq.2
        else pure false
      | .attrs as1, .attrs as2 =>
        if as1.length = as2.length then
          (as1.zip as2).allM fun pq => eqValues f pq.1.2 pq.2.2
        else pure false
      | .lambda .., _ => pure false
      | .primOp _, _ => pure false
      | .primOpApp .., _ => pure false
      | w1', w2' => .error (.cannotCompare w1'.tag w2'.tag)
    else pure false

end

end Evaluator

/-- One step of the `ConcatStrings` accumulation: evaluate the component,
coerce it with `coerceMore = false` and `copyToStore = !isPath`, append the
string and thread the context. -/
def concatStep (store : String → String) (f : Nat) (env : Env) (isPath : Bool) :
    (String × List String) → Expr → Res (String × List String) :=
  fun acc e2 => do
    let v ← eval store f env e2
    let sc2 ← coerceToString store f v acc.2 false (!isPath)
    pure (acc.1 ++ sc2.1, sc2.2)

/-- One step of the list-coercion accumulation: force the element, coerce it,
and record its string together with the is-empty-list flag of the forced
element. -/
def coerceStep (store : String → String) (f : Nat) (coerceMore copyToStore : Bool) :
    (List (String × Bool) × List String) → Value →
    Res (List (String × Bool) × List String) :=
  fun acc e2 => do
    let we ← forceValue store f e2
    let sc ← coerceToString store f we acc.2 coerceMore copyToStore
    pure (acc.1 ++ [(sc.1, we.isEmptyList)], sc.2)

/-- A sample store-path assignment, used to instantiate the evaluator in
concrete computations (the claims never depend on its values). -/
def store0 : String → String := fun p => "/nix/store/0000-" ++ p

/-- The base environment.  `createBaseEnv` (outside `src/`) populates it with
constants and primops; the claims' programs need integer addition. -/
def baseEnv : Env := .cons (.plain [("add", Entry.val (.primOp .add))]) .nil

/-- The parser's desugaring of `let binds; in body`: a recursive attribute
set extended with a reserved binding for the body, immediately selected. -/
def letIn (binds : List (Sym × Expr)) (body : Expr) : Expr :=
  .select (.recAttrs (binds ++ [("<let-body>", body)]) []) "<let-body>"

/-! ### Specification-side definitions for name resolution (claim C4) -/

/-- All suffixes of an environment chain, innermost first (the upward walk). -/
def envSuffixes : Env → List Env
  | .nil => []
  | .cons fr up => Env.cons fr up :: envSuffixes up

/-- The regular binding for `name` in the head frame only. -/
def headRegular (name : Sym) : Env → Option Value
  | .cons (.plain entries) up =>
    (match findA name entries with
     | some (.val v) => some v
     | some (.defer e) => some (.thunk (.cons (.plain entries) up) e)
     | none => none)
  | _ => none

/-- The `with` attribute sets along the chain, innermost first. -/
def withSets : Env → List (List (Sym × Value))
  | .nil => []
  | .cons (.withF as) up => as :: withSets up
  | .cons (.plain _) up => withSets up

/-- Name resolution as the specification words it: walk the chain upward and
return the first regular binding; failing that, consult the `with` frames in
order from outermost to innermost; otherwise the undefined-variable error. -/
def specLookupVar (env : Env) (name : Sym) : Res Value :=
  match (envSuffixes env).findSome? (headRegular name) with
  | some v => .ok v
  | none =>
    match ((withSets env).reverse).findSome? (fun as => findA name as) with
    | some v => .ok v
    | none => .error (.undefinedVariable name)

/-! ### Specification-side definitions for the list-coercion separator
(claim C2) -/

/-- The claim's separator rule, verbatim: a separator is inserted before
every element except the first, unless the element about to be emitted is an
empty list (no separator *before* an empty-list element). -/
def specClaimJoin : List (String × Bool) → String
  | [] => ""
  | [(s, _)] => s
  | (s, _) :: (t, emptyNext) :: rest =>
    s ++ (if emptyNext then "" else " ") ++ specClaimJoin ((t, emptyNext) :: rest)

/-- The amended separator rule: a separator follows every element except the
last, unless the element just emitted is an empty list (no separator *after*
an empty-list element). -/
def specAmendedJoin : List (String × Bool) → String
  | [] => ""
  | [(s, _)] => s
  | (s, true) :: p :: rest => s ++ specAmendedJoin (p :: rest)
  | (s, false) :: p :: rest => s ++ " " ++ specAmendedJoin (p :: rest)

/-! ### Values and programs used by individual claims -/

/-- A sample lambda value (a function value for claim C8). -/
def funLam : Value := .lambda baseEnv (.varPat "x") (.var "x")

/-- `with { a = 1; }; with { a = 2; }; a` (claim C4). -/
def c4WithProg : Expr :=
  .withE (.attrs [("a", .int 1)]) (.withE (.attrs [("a", .int 2)]) (.var "a") 0) 0

/-- `let x = 1; in let x = 2; in x` (claim C4, desugared). -/
def c4LetProg : Expr := letIn [("x", .int 1)] (letIn [("x", .int 2)] (.var "x"))

/-- The body of `f` in claim C3: `f x`. -/
def c3LamBody : Expr := .call (.var "f") (.var "x")

/-- `x: f x` (claim C3). -/
def c3LamExpr : Expr := .lam (.varPat "x") c3LamBody 0

/-- `let f = x: f x; in f 1` (claim C3, desugared). -/
def c3prog : Expr := letIn [("f", c3LamExpr)] (.call (.var "f") (.int 1))

/-- The entries of the recursive attribute set of `c3prog`, in canonical key
order. -/
def c3RecEntries : List (Sym × Entry) :=
  [("<let-body>", Entry.defer (.call (.var "f") (.int 1))),
   ("f", Entry.defer c3LamExpr)]

/-- The environment of the `rec` frame of `c3prog`. -/
def c3RecEnv : Env := .cons (.plain c3RecEntries) baseEnv

/-- The expression `e` diverges: evaluation exhausts every fuel bound (the
C++ original, which recurses on the host stack instead of consuming fuel,
never returns). -/
def NeverFinishes (e : Expr) : Prop :=
  ∀ fuel, eval store0 fuel baseEnv e = .outOfFuel

/-- `({ x, y ? add x 1 }: y) { x = 10; }` (claim C9; the spec's scenario 3
with its addition spelled through the registered primop). -/
def c9prog : Expr :=
  .call
    (.lam
      (.attrsPat
        [("x", none),
         ("y", some (.call (.call (.var "add") (.var "x")) (.int 1)))]
        false none)
      (.var "y") 0)
    (.attrs [("x", .int 10)])

/-! ### The curried-application chain (claim C7) -/

/-- The value of `p a1 ... ak` with the arguments listed innermost-last:
`primChainRev pid [ak, ..., a1]`.  Each layer stores the countdown
`arity - supplied` that `callFunction` wrote into it. -/
def primChainRev (pid : PrimOpId) : List Value → Value
  | [] => .primOp pid
  | a :: rest => .primOpApp (primChainRev pid rest) a (arityOf pid - (rest.length + 1))

/-- The value of the curried application `p a1 ... ak`, arguments in the
order they were supplied. -/
def primChain (pid : PrimOpId) (as : List Value) : Value :=
  primChainRev pid as.reverse

/-! ### Strict forcing and equality reflexivity (claim C8) -/

mutual

/-- The value contains no function value and no internal node (thunk, app,
copy, blackhole) anywhere: scalars, and lists / attribute sets of such
values.  Strict forcing leaves no internal node, so on a strictly forced
value this reads "contains no function value". -/
def funcFreeV : Value → Bool
  | .int _ => true
  | .bool _ => true
  | .null => true
  | .str _ _ => true
  | .path _ => true
  | .list es => funcFreeL es
  | .attrs as => funcFreeA as
  | _ => false

/-- `funcFreeV` on every element. -/
def funcFreeL : List Value → Bool
  | [] => true
  | v :: rest => funcFreeV v && funcFreeL rest

/-- `funcFreeV` on every attribute value. -/
def funcFreeA : List (Sym × Value) → Bool
  | [] => true
  | p :: rest => funcFreeV p.2 && funcFreeA rest

end

/-- `EvalState::strictForceValue` (eval.cc:711-724): force the value and
then, transitively, every attribute value and every list element.  The
source forces the cells in place; the pure model returns the deeply forced
value, elements left to right as the source loops do. -/
def strictForceValue (store : String → String) : Nat → Value → Res Value
  | 0, _ => .outOfFuel
  | f + 1, v => do
    let w ← forceValue store f v
    match w with
    | .attrs as => do
      let as2 ← as.foldlM
        (fun acc p => do
          let w2 ← strictForceValue store f p.2
          pure (acc ++ [(p.1, w2)]))
        []
      pure (.attrs as2)
    | .list es => do
      let es2 ← es.foldlM
        (fun acc e => do
          let w2 ← strictForceValue store f e
          pure (acc ++ [w2]))
        []
      pure (.list es2)
    | w2 => pure w2

/-! ### Cell-level model of `forceValue` (claim C5)

`forceValue` mutates a value cell in place: the cell is a C union headed by a
type tag.  Forcing a thunk reads the `(env, expr)` payload, overwrites the
tag with `tBlackhole`, evaluates into the very same cell, and on failure
restores only the saved *tag* — whatever the partial evaluation wrote over
the payload stays.  The model below captures exactly this tag/payload split
for a fragment of the dispatcher sufficient for the claim:

* integer and variable rules write the destination only when they succeed
  (`lookupVar` throws before any write);
* the attribute-set literal rule writes the destination (`mkAttrs`) before
  installing member thunks, which cannot fail, so it writes only on success;
  member thunks play no part in the cell dynamics and only the keys are kept;
* the update rule (`e1 // e2`) evaluates `e1` into a local, then
  `cloneAttrs` writes the destination, then evaluates `e2` into a local —
  an `e2` failure therefore propagates with the destination already
  overwritten.

Environments are restricted to integer bindings (the claim's failing input
needs only an empty environment).  Reading the thunk fields of a cell whose
payload is not a thunk payload — the C++ behaviour is undefined — is
modelled as the distinct `typeConfusion` outcome. -/

/-- Value-type tag of a cell (`v.type`). -/
inductive CTag where
  | tInt | tAttrs | tThunk | tBlackhole | tUninit
  deriving DecidableEq

/-- Expression fragment: integers, variables, attribute-set literals (keys
only), and `//`. -/
inductive CExpr where
  | cint (n : Int)
  | cvar (name : String)
  | cattrs (names : List String)
  | cupdate (e1 e2 : CExpr)
  deriving DecidableEq

/-- Environments of the fragment: integer bindings. -/
abbrev CEnv := List (String × Int)

/-- The union payload sharing storage under the tag. -/
inductive CPayload where
  | pInt (n : Int)
  | pAttrs (names : List String)
  | pThunk (env : CEnv) (e : CExpr)
  | pNone
  deriving DecidableEq

/-- A value cell: a tag and the union payload. -/
structure CCell where
  tag : CTag
  payload : CPayload
  deriving DecidableEq

/-- Errors of the cell model. -/
inductive CErr where
  | cUndefinedVar (name : String)
  | cTypeConfusion
  | cInfiniteRecursion
  | cOutOfFuel
  | cUB
  deriving DecidableEq

/-- Outcome of evaluating into a destination cell: the cell's final state and
an optional error. -/
structure COut where
  cell : CCell
  err : Option CErr
  deriving DecidableEq

/-- Keys of `ks1 // ks2`. -/
def mergeNames (ks1 ks2 : List String) : List String :=
  ks2.foldl (fun acc k => if k ∈ acc then acc else acc ++ [k]) ks1

/-- Destination-passing evaluation of the fragment, with the write order of
`EvalState::eval` made explicit (see the section comment). -/
def cEval : Nat → CEnv → CExpr → CCell → COut
  | 0, _, _, cell => ⟨cell, some .cOutOfFuel⟩
  | f + 1, env, e, cell =>
    match e with
    | .cint n => ⟨⟨.tInt, .pInt n⟩, none⟩
    | .cvar x =>
      match findA x env with
      | none => ⟨cell, some (.cUndefinedVar x)⟩
      | some n => ⟨⟨.tInt, .pInt n⟩, none⟩
    | .cattrs names => ⟨⟨.tAttrs, .pAttrs names⟩, none⟩
    | .cupdate e1 e2 =>
      let r1 := cEval f env e1 ⟨.tUninit, .pNone⟩
      match r1.err with
      | some er => ⟨cell, some er⟩
      | none =>
        match r1.cell with
        | ⟨.tAttrs, .pAttrs ks1⟩ =>
          let cell1 : CCell := ⟨.tAttrs, .pAttrs ks1⟩
          let r2 := cEval f env e2 ⟨.tUninit, .pNone⟩
          match r2.err with
          | some er => ⟨cell1, some er⟩
          | none =>
            match r2.cell with
            | ⟨.tAttrs, .pAttrs ks2⟩ => ⟨⟨.tAttrs, .pAttrs (mergeNames ks1 ks2)⟩, none⟩
            | _ => ⟨cell1, some .cUB⟩
        | _ => ⟨cell, some .cUB⟩

/-- `EvalState::forceValue` on a cell.  A thunk cell saves its tag, reads the
`(env, expr)` payload, blackholes the tag, evaluates into itself, and on
failure restores the saved tag over whatever payload evaluation left behind.
A blackholed cell is the infinite-recursion error.  Every other cell is
already forced. -/
def cForce (fuel : Nat) (cell : CCell) : COut :=
  match cell.tag with
  | .tThunk =>
    (match cell.payload with
     | .pThunk env e =>
       let r := cEval fuel env e ⟨.tBlackhole, .pThunk env e⟩
       (match r.err with
        | some er => ⟨⟨.tThunk, r.cell.payload⟩, some er⟩
        | none => r)
     | _ => ⟨cell, some .cTypeConfusion⟩)
  | .tBlackhole => ⟨cell, some .cInfiniteRecursion⟩
  | _ => ⟨cell, none⟩

/-- A thunk over `{ } // q` with `q` unbound (claim C5's failing input). -/
def c5Cell : CCell := ⟨.tThunk, .pThunk [] (.cupdate (.cattrs []) (.cvar "q"))⟩

/-- A thunk over plain `q` with `q` unbound: evaluation throws before
writing, so here the restore is exact. -/
def c5Benign : CCell := ⟨.tThunk, .pThunk [] (.cvar "q")⟩

/-! ## Helper lemmas -/

/-- Forcing is the identity on values already in weak head normal form.
One lemma per non-internal constructor (the fuel must be split first because
the mutual recursion is structural in the fuel). -/
@[simp] theorem forceValue_int (st : String → String) (f : Nat) (n : Int) :
    forceValue st f (.int n) = .ok (.int n) := by cases f <;> rfl

@[simp] theorem forceValue_bool (st : String → String) (f : Nat) (b : Bool) :
    forceValue st f (.bool b) = .ok (.bool b) := by cases f <;> rfl

@[simp] theorem forceValue_null (st : String → String) (f : Nat) :
    forceValue st f .null = .ok .null := by cases f <;> rfl

@[simp] theorem forceValue_str (st : String → String) (f : Nat) (s : String)
    (ctx : List String) : forceValue st f (.str s ctx) = .ok (.str s ctx) := by
  cases f <;> rfl

@[simp] theorem forceValue_path (st : String → String) (f : Nat) (p : String) :
    forceValue st f (.path p) = .ok (.path p) := by cases f <;> rfl

@[simp] theorem forceValue_attrs (st : String → String) (f : Nat)
    (as : List (Sym × Value)) : forceValue st f (.attrs as) = .ok (.attrs as) := by
  cases f <;> rfl

@[simp] theorem forceValue_list (st : String → String) (f : Nat)
    (es : List Value) : forceValue st f (.list es) = .ok (.list es) := by
  cases f <;> rfl

@[simp] theorem forceValue_lambda (st : String → String) (f : Nat) (env : Env)
    (pat : Pattern) (body : Expr) :
    forceValue st f (.lambda env pat body) = .ok (.lambda env pat body) := by
  cases f <;> rfl

@[simp] theorem forceValue_primOp (st : String → String) (f : Nat)
    (pid : PrimOpId) : forceValue st f (.primOp pid) = .ok (.primOp pid) := by
  cases f <;> rfl

@[simp] theorem forceValue_primOpApp (st : String → String) (f : Nat)
    (l r : Value) (n : Nat) :
    forceValue st f (.primOpApp l r n) = .ok (.primOpApp l r n) := by
  cases f <;> rfl

/-- `findSome?` distributes over append. -/
theorem findSome?_append {α β : Type} (g : α → Option β) :
    ∀ l1 l2 : List α, (l1 ++ l2).findSome? g =
      (match l1.findSome? g with
       | some b => some b
       | none => l2.findSome? g)
  | [], _ => rfl
  | a :: l1, l2 => by
    simp only [List.cons_append, List.findSome?]
    cases g a <;> simp [findSome?_append g l1 l2]

/-- The first regular binding of the upward walk, as a search over the
chain's suffixes. -/
theorem lookupRegular_spec : ∀ (env : Env) (name : Sym),
    lookupRegular env name = (envSuffixes env).findSome? (headRegular name)
  | .nil, _ => rfl
  | .cons (.plain entries) up, name => by
    simp only [lookupRegular, envSuffixes, List.findSome?, headRegular]
    cases h : findA name entries with
    | none => simpa using lookupRegular_spec up name
    | some e => cases e <;> rfl
  | .cons (.withF as) up, name => by
    simp only [lookupRegular, envSuffixes, List.findSome?, headRegular]
    exact lookupRegular_spec up name

/-- `lookupWith` searches the `with` frames outermost-first. -/
theorem lookupWith_spec : ∀ (env : Env) (name : Sym),
    lookupWith env name =
      ((withSets env).reverse).findSome? (fun as => findA name as)
  | .nil, _ => rfl
  | .cons (.plain entries) up, name => by
    have ih := lookupWith_spec up name
    simp only [lookupWith, withSets, ih]
    cases ((withSets up).reverse).findSome? (fun as => findA name as) <;> rfl
  | .cons (.withF as) up, name => by
    have ih := lookupWith_spec up name
    simp only [lookupWith, withSets, List.reverse_cons, findSome?_append, ih]
    cases ((withSets up).reverse).findSome? (fun as2 => findA name as2) with
    | none => simp only [List.findSome?]; cases findA name as <;> rfl
    | some v => rfl

/-- Unfolding of `eqValues` on two attribute sets: sizes first, then the
element-wise comparison of the attribute values only. -/
theorem eqValues_attrs_succ (st : String → String) (f : Nat)
    (as bs : List (Sym × Value)) :
    eqValues st (f + 1) (.attrs as) (.attrs bs) =
      if as.length = bs.length then
        (as.zip bs).allM (fun pq => eqValues st f pq.1.2 pq.2.2)
      else .ok false := by
  rw [eqValues]
  simp [Value.tag]

/-- The attribute comparison of `eqValues` only looks at the `Prod.snd`
components of the zipped bindings. -/
theorem allM_zip_snd (k : Value → Value → Res Bool) :
    ∀ (as bs : List (Sym × Value)), as.map Prod.snd = bs.map Prod.snd →
      (as.zip bs).allM (fun pq => k pq.1.2 pq.2.2) =
        (as.zip as).allM (fun pq => k pq.1.2 pq.2.2)
  | [], [], _ => rfl
  | [], _ :: _, h => by simp at h
  | _ :: _, [], h => by simp at h
  | a :: as, b :: bs, h => by
    simp only [List.map_cons, List.cons.injEq] at h
    simp only [List.zip_cons_cons, List.allM, h.1]
    cases hk : k b.2 b.2 with
    | ok bv =>
      cases bv with
      | true =>
        simp only [hk, Res.bind_ok]
        exact allM_zip_snd k as bs h.2
      | false => simp [hk]
    | error e => simp [hk]
    | outOfFuel => simp [hk]

/-- Key-independence of attribute-set equality: the result only depends on
the attribute values in iteration order. -/
theorem eqValues_attrs_keyFree (st : String → String) (f : Nat)
    (as bs : List (Sym × Value)) (h : as.map Prod.snd = bs.map Prod.snd) :
    eqValues st f (.attrs as) (.attrs bs) = eqValues st f (.attrs as) (.attrs as) := by
  cases f with
  | zero => rfl
  | succ f =>
    have hlen : as.length = bs.length := by
      simpa using congrArg List.length h
    rw [eqValues_attrs_succ, eqValues_attrs_succ, if_pos hlen, if_pos rfl,
      allM_zip_snd _ as bs h]

/-- The coercion of a list under `coerceMore` is the fold of `coerceStep`
over the elements followed by `joinParts`. -/
theorem coerce_list_succ (st : String → String) (f : Nat) (es : List Value)
    (ctx : List String) (cts : Bool) :
    coerceToString st (f + 1) (.list es) ctx true cts =
      (do
        let pc ← es.foldlM (coerceStep st f true cts) ([], ctx)
        pure (joinParts pc.1, pc.2)) := by
  rw [coerceToString]
  simp only [forceValue_list, Res.bind_ok, coerceStep]
  rfl

/-- `joinParts` satisfies the amended separator rule. -/
theorem joinParts_spec : ∀ parts, joinParts parts = specAmendedJoin parts
  | [] => rfl
  | [(_, b)] => by cases b <;> rfl
  | (s, b) :: p :: rest => by
    cases b <;>
      simp [joinParts, specAmendedJoin, joinParts_spec (p :: rest)]

/-- In an environment whose head frame binds only `x`, the variable `f`
resolves to the thunk of the `rec` frame of `c3prog`. -/
theorem c3_lookup_env2 (a : Value) :
    lookupRegular (Env.cons (.plain [("x", Entry.val a)]) c3RecEnv) "f"
      = some (.thunk c3RecEnv c3LamExpr) := rfl

/-- The application loop of `c3prog`: in any environment resolving `f` to
its lambda thunk, `f a` exhausts every fuel bound — each call allocates a
fresh environment and re-enters the same application. -/
theorem c3_loop : ∀ (n : Nat) (env : Env) (a : Expr),
    lookupRegular env "f" = some (.thunk c3RecEnv c3LamExpr) →
    eval store0 n env (.call (.var "f") a) = .outOfFuel := by
  intro n
  induction n using Nat.strong_induction_on with
  | _ n ih =>
    intro env a h
    match n with
    | 0 => rfl
    | 1 => rfl
    | 2 =>
      show eval store0 2 env (.call (.var "f") a) = .outOfFuel
      simp only [eval, lookupVar, h, Res.bind_ok, Res.bind_outOfFuel, forceValue]
    | 3 =>
      show eval store0 3 env (.call (.var "f") a) = .outOfFuel
      simp only [eval, lookupVar, h, Res.bind_ok, Res.bind_outOfFuel, forceValue]
    | (k+4) =>
      have key := ih (k+2) (by omega)
        (Env.cons (.plain [("x", Entry.val (.thunk env a))]) c3RecEnv) (.var "x")
        (c3_lookup_env2 (.thunk env a))
      have hvar : eval store0 (k+3) env (.var "f")
          = .ok (.lambda c3RecEnv (.varPat "x") c3LamBody) := by
        simp only [eval, lookupVar, h, Res.bind_ok, forceValue, c3LamExpr]
      calc eval store0 (k+4) env (.call (.var "f") a)
          = (do
              let vFun ← eval store0 (k+3) env (.var "f")
              callFunction store0 (k+3) vFun (.thunk env a)) := rfl
        _ = .outOfFuel := by rw [hvar, Res.bind_ok]; exact key

/-- `c3prog` exhausts every fuel bound. -/
theorem c3_diverges : ∀ fuel, eval store0 fuel baseEnv c3prog = .outOfFuel := by
  intro fuel
  match fuel with
  | 0 => rfl
  | 1 => rfl
  | (g+2) =>
    calc eval store0 (g+2) baseEnv c3prog
        = eval store0 g c3RecEnv (.call (.var "f") (.int 1)) := rfl
      _ = .outOfFuel := c3_loop g c3RecEnv (.int 1) rfl

/-- Does the outcome carry the infinite-recursion error? -/
def Res.isInfiniteRecursionError {α : Type} : Res α → Bool
  | .error .infiniteRecursion => true
  | _ => false

/-- Evaluation of `e` never surfaces the infinite-recursion error and never
completes: every fuel bound is exhausted. -/
def DivergesQuietly (e : Expr) : Prop :=
  ∀ fuel, (eval store0 fuel baseEnv e).isInfiniteRecursionError = false
    ∧ eval store0 fuel baseEnv e = .outOfFuel

/-- The root of a chain is its primop. -/
theorem chainRoot_primChainRev (pid : PrimOpId) :
    ∀ l : List Value, chainRoot (primChainRev pid l) = some pid
  | [] => rfl
  | a :: rest => by
    simp only [primChainRev, chainRoot]
    exact chainRoot_primChainRev pid rest

/-- Walking a chain gathers the supplied arguments, leftmost first. -/
theorem gatherGo_primChainRev (pid : PrimOpId) :
    ∀ (l acc : List Value), gatherGo (primChainRev pid l) acc = l.reverse ++ acc
  | [], _ => rfl
  | a :: rest, acc => by
    simp only [primChainRev, gatherGo, List.reverse_cons, List.append_assoc]
    exact gatherGo_primChainRev pid rest (a :: acc)

theorem chainRoot_primChain (pid : PrimOpId) (as : List Value) :
    chainRoot (primChain pid as) = some pid :=
  chainRoot_primChainRev pid as.reverse

theorem gatherGo_primChain (pid : PrimOpId) (as acc : List Value) :
    gatherGo (primChain pid as) acc = as ++ acc := by
  rw [primChain, gatherGo_primChainRev, List.reverse_reverse]

/-- Supplying one more argument extends the chain by one `PrimOpApp` layer
carrying `arity - (supplied + 1)`. -/
theorem primChain_snoc (pid : PrimOpId) (as : List Value) (a : Value) :
    primChain pid (as ++ [a])
      = .primOpApp (primChain pid as) a (arityOf pid - (as.length + 1)) := by
  simp [primChain, primChainRev, List.reverse_append]

/-- The stored countdown of a non-empty chain. -/
theorem primArgsLeft_primChain (pid : PrimOpId) (as : List Value)
    (hne : as ≠ []) :
    primArgsLeft (primChain pid as) = some (arityOf pid - as.length) := by
  induction as using List.reverseRecOn with
  | nil => exact absurd rfl hne
  | append_singleton as' a _ =>
    rw [primChain_snoc]
    simp [primArgsLeft]

/-- Applying a chain that still waits for more than one argument builds the
extended chain with the countdown decremented. -/
theorem c7_extend_aux (st : String → String) (f : Nat) (pid : PrimOpId)
    (as : List Value) (a : Value) (h : as.length + 1 < arityOf pid) :
    callFunction st (f + 1) (primChain pid as) a = .ok (primChain pid (as ++ [a])) := by
  induction as using List.reverseRecOn with
  | nil =>
    show callFunction st (f + 1) (.primOp pid) a = _
    rw [callFunction]
    simp only []
    rw [if_neg (show ¬arityOf pid = 1 by simp at h; omega)]
    rw [primChain_snoc]
    simp [primChain, primChainRev]
  | append_singleton as' b _ =>
    rw [primChain_snoc]
    rw [callFunction]
    simp only []
    rw [if_neg (show ¬arityOf pid - (as'.length + 1) = 1 by simp at h; omega)]
    rw [primChain_snoc, primChain_snoc]
    congr 1
    simp at h ⊢
    omega

/-- Applying a chain waiting for exactly one argument invokes the root
primop on the gathered arguments in supplied order. -/
theorem c7_invoke_aux (st : String → String) (f : Nat) (pid : PrimOpId)
    (as : List Value) (a : Value) (h : as.length + 1 = arityOf pid) :
    callFunction st (f + 1) (primChain pid as) a = applyPrimOp st f pid (as ++ [a]) := by
  cases as using List.reverseRecOn with
  | nil =>
    show callFunction st (f + 1) (.primOp pid) a = _
    rw [callFunction]
    simp only []
    rw [if_pos (show arityOf pid = 1 by simp at h; omega)]
    simp [chainRoot, gatherGo]
  | append_singleton as' b =>
    rw [primChain_snoc]
    rw [callFunction]
    simp only []
    rw [if_pos (show arityOf pid - (as'.length + 1) = 1 by simp at h; omega)]
    simp only [chainRoot, gatherGo]
    rw [chainRoot_primChain]
    simp only []
    rw [gatherGo_primChain]
    simp [List.append_assoc]

theorem mem_zip_self {α : Type} : ∀ (l : List α) (x : α × α), x ∈ l.zip l → x.1 = x.2 ∧ x.1 ∈ l
  | [], x, hx => by simp at hx
  | a :: rest, x, hx => by
    rcases List.mem_cons.mp hx with h | h
    · subst h; exact ⟨rfl, List.mem_cons_self a rest⟩
    · obtain ⟨h1, h2⟩ := mem_zip_self rest x h
      exact ⟨h1, List.mem_cons_of_mem a h2⟩

theorem allM_ok_true {α : Type} : ∀ (l : List α) (g : α → Res Bool),
    (∀ x ∈ l, g x = .ok true) → l.allM g = .ok true
  | [], _, _ => rfl
  | a :: rest, g, h => by
    have ha := h a (List.mem_cons_self a rest)
    simp only [List.allM, ha, Res.bind_ok]
    exact allM_ok_true rest g (fun x hx => h x (List.mem_cons_of_mem a hx))

theorem funcFreeL_mem : ∀ (es : List Value) (v : Value),
    funcFreeL es = true → v ∈ es → funcFreeV v = true
  | [], _, _, hm => by simp at hm
  | a :: rest, v, h, hm => by
    rw [funcFreeL, Bool.and_eq_true] at h
    rcases List.mem_cons.mp hm with h1 | h1
    · subst h1; exact h.1
    · exact funcFreeL_mem rest v h.2 h1

theorem funcFreeA_mem : ∀ (as : List (Sym × Value)) (p : Sym × Value),
    funcFreeA as = true → p ∈ as → funcFreeV p.2 = true
  | [], _, _, hm => by simp at hm
  | a :: rest, p, h, hm => by
    rw [funcFreeA, Bool.and_eq_true] at h
    rcases List.mem_cons.mp hm with h1 | h1
    · subst h1; exact h.1
    · exact funcFreeA_mem rest p h.2 h1

/-- Inversion of the list arm of `strictForceValue`: the accumulator's
elements survive into the output, and every list element is strictly
forced to some member of the output. -/
theorem strictForce_fold_list (st : String → String) (f : Nat) :
    ∀ (es : List Value) (acc out : List Value),
      es.foldlM
        (fun acc2 e => do
          let w2 ← strictForceValue st f e
          pure (acc2 ++ [w2]))
        acc = .ok out →
      (∀ x ∈ acc, x ∈ out)
        ∧ (∀ e ∈ es, ∃ w2, w2 ∈ out ∧ strictForceValue st f e = .ok w2)
  | [], acc, out, h => by
    simp only [List.foldlM_nil, Res.pure_def] at h
    injection h with h2
    subst h2
    exact ⟨fun x hx => hx, by simp⟩
  | e :: rest, acc, out, h => by
    rw [List.foldlM_cons] at h
    cases hse : strictForceValue st f e with
    | ok we =>
      rw [hse] at h
      simp only [Res.bind_ok, Res.pure_def] at h
      obtain ⟨hpre, helems⟩ := strictForce_fold_list st f rest (acc ++ [we]) out h
      refine ⟨fun x hx => hpre x (List.mem_append_left _ hx), fun e2 he2 => ?_⟩
      rcases List.mem_cons.mp he2 with h1 | h1
      · subst h1
        exact ⟨we, hpre we (List.mem_append_right _ (by simp)), hse⟩
      · exact helems e2 h1
    | error er => rw [hse] at h; simp at h
    | outOfFuel => rw [hse] at h; simp at h

/-- Inversion of the attribute arm of `strictForceValue`: the accumulator's
bindings survive into the output, and every attribute value is strictly
forced to the value of some output binding. -/
theorem strictForce_fold_attrs (st : String → String) (f : Nat) :
    ∀ (as : List (Sym × Value)) (acc out : List (Sym × Value)),
      as.foldlM
        (fun acc2 p => do
          let w2 ← strictForceValue st f p.2
          pure (acc2 ++ [(p.1, w2)]))
        acc = .ok out →
      (∀ x ∈ acc, x ∈ out)
        ∧ (∀ p ∈ as, ∃ q, q ∈ out ∧ strictForceValue st f p.2 = .ok q.2)
  | [], acc, out, h => by
    simp only [List.foldlM_nil, Res.pure_def] at h
    injection h with h2
    subst h2
    exact ⟨fun x hx => hx, by simp⟩
  | p :: rest, acc, out, h => by
    rw [List.foldlM_cons] at h
    cases hse : strictForceValue st f p.2 with
    | ok we =>
      rw [hse] at h
      simp only [Res.bind_ok, Res.pure_def] at h
      obtain ⟨hpre, helems⟩ := strictForce_fold_attrs st f rest (acc ++ [(p.1, we)]) out h
      refine ⟨fun x hx => hpre x (List.mem_append_left _ hx), fun p2 hp2 => ?_⟩
      rcases List.mem_cons.mp hp2 with h1 | h1
      · subst h1
        exact ⟨(p2.1, we), hpre (p2.1, we) (List.mem_append_right _ (by simp)), hse⟩
      · exact helems p2 h1
    | error er => rw [hse] at h; simp at h
    | outOfFuel => rw [hse] at h; simp at h

/-- If strictly forcing `v` succeeds within a fuel bound and the result
contains no function value, then `v == v` evaluates to `true` at the same
bound: both computations force `v` once and then recurse into the same
elements with one unit of fuel less. -/
theorem eqValues_refl_strict (st : String → String) :
    ∀ (f : Nat) (v w : Value),
      strictForceValue st f v = .ok w → funcFreeV w = true →
      eqValues st f v v = .ok true := by
  intro f
  induction f with
  | zero =>
    intro v w hs _
    exact Res.noConfusion hs
  | succ f ih =>
    intro v w hs hf
    replace hs : (do
        let w1 ← forceValue st f v
        match w1 with
        | .attrs as => do
          let as2 ← as.foldlM
            (fun acc p => do
              let w2 ← strictForceValue st f p.2
              pure (acc ++ [(p.1, w2)]))
            []
          pure (Value.attrs as2)
        | .list es => do
          let es2 ← es.foldlM
            (fun acc e => do
              let w2 ← strictForceValue st f e
              pure (acc ++ [w2]))
            []
          pure (Value.list es2)
        | w2 => pure w2) = Res.ok w := hs
    rw [eqValues]
    cases hforce : forceValue st f v with
    | error er => rw [hforce] at hs; simp at hs
    | outOfFuel => rw [hforce] at hs; simp at hs
    | ok w1 =>
      rw [hforce] at hs
      simp only [Res.bind_ok] at hs
      simp only [Res.bind_ok]
      cases w1 with
      | int n => simp [Value.tag]
      | bool b => simp [Value.tag]
      | null => simp [Value.tag]
      | str s ctx => simp [Value.tag]
      | path p => simp [Value.tag]
      | list es =>
        replace hs : (do
            let es2 ← es.foldlM
              (fun acc e => do
                let w2 ← strictForceValue st f e
                pure (acc ++ [w2]))
              ([] : List Value)
            pure (Value.list es2)) = Res.ok w := hs
        cases hfold : es.foldlM
            (fun acc e => do
              let w2 ← strictForceValue st f e
              pure (acc ++ [w2]))
            ([] : List Value) with
        | ok out =>
          rw [hfold] at hs
          simp only [Res.bind_ok, Res.pure_def] at hs
          injection hs with hw
          subst hw
          replace hf : funcFreeL out = true := hf
          simp only [Value.tag, if_pos]
          apply allM_ok_true
          intro x hx
          obtain ⟨hxy, hmem⟩ := mem_zip_self es x hx
          obtain ⟨w2, hw2mem, hw2⟩ :=
            (strictForce_fold_list st f es [] out hfold).2 x.1 hmem
          rw [← hxy]
          exact ih x.1 w2 hw2 (funcFreeL_mem out w2 hf hw2mem)
        | error er => rw [hfold] at hs; simp at hs
        | outOfFuel => rw [hfold] at hs; simp at hs
      | attrs as =>
        replace hs : (do
            let as2 ← as.foldlM
              (fun acc p => do
                let w2 ← strictForceValue st f p.2
                pure (acc ++ [(p.1, w2)]))
              ([] : List (Sym × Value))
            pure (Value.attrs as2)) = Res.ok w := hs
        cases hfold : as.foldlM
            (fun acc p => do
              let w2 ← strictForceValue st f p.2
              pure (acc ++ [(p.1, w2)]))
            ([] : List (Sym × Value)) with
        | ok out =>
          rw [hfold] at hs
          simp only [Res.bind_ok, Res.pure_def] at hs
          injection hs with hw
          subst hw
          replace hf : funcFreeA out = true := hf
          simp only [Value.tag, if_pos]
          apply allM_ok_true
          intro x hx
          obtain ⟨hxy, hmem⟩ := mem_zip_self as x hx
          obtain ⟨q, hqmem, hq⟩ :=
            (strictForce_fold_attrs st f as [] out hfold).2 x.1 hmem
          rw [← hxy]
          exact ih x.1.2 q.2 hq (funcFreeA_mem out q hf hqmem)
        | error er => rw [hfold] at hs; simp at hs
        | outOfFuel => rw [hfold] at hs; simp at hs
      | lambda env pat body =>
        replace hs : Res.ok (Value.lambda env pat body) = Res.ok w := hs
        injection hs with hw
        subst hw
        exact Bool.noConfusion hf
      | primOp pid =>
        replace hs : Res.ok (Value.primOp pid) = Res.ok w := hs
        injection hs with hw
        subst hw
        exact Bool.noConfusion hf
      | primOpApp l r n =>
        replace hs : Res.ok (Value.primOpApp l r n) = Res.ok w := hs
        injection hs with hw
        subst hw
        exact Bool.noConfusion hf
      | thunk env e =>
        replace hs : Res.ok (Value.thunk env e) = Res.ok w := hs
        injection hs with hw
        subst hw
        exact Bool.noConfusion hf
      | app l r =>
        replace hs : Res.ok (Value.app l r) = Res.ok w := hs
        injection hs with hw
        subst hw
        exact Bool.noConfusion hf
      | copy v2 =>
        replace hs : Res.ok (Value.copy v2) = Res.ok w := hs
        injection hs with hw
        subst hw
        exact Bool.noConfusion hf
      | blackhole =>
        replace hs : Res.ok Value.blackhole = Res.ok w := hs
        injection hs with hw
        subst hw
        exact Bool.noConfusion hf

theorem eqValues_functions (st : String → String) (f : Nat) (v1 v2 : Value)
    (h1 : v1.isFunction = true) (h2 : v2.isFunction = true) :
    eqValues st (f + 1) v1 v2 = .ok false := by
  cases v1 <;>
    first
    | exact Bool.noConfusion h1
    | (cases v2 <;>
        first
        | exact Bool.noConfusion h2
        | (rw [eqValues]; simp [Value.tag]))

/-- A formal with a matching actual is bound through a `Copy` indirection
and counted. -/
theorem bindFormals_present (name : Sym) (dflt : Option Expr)
    (rest : List (Sym × Option Expr)) (argAs : List (Sym × Value))
    (acc : List (Sym × Entry)) (used : Nat) (av : Value)
    (h : findA name argAs = some av) :
    bindFormals ((name, dflt) :: rest) argAs acc used
      = bindFormals rest argAs (insertA name (Entry.val (.copy av)) acc) (used + 1) := by
  have hu : bindFormals ((name, dflt) :: rest) argAs acc used
      = (match findA name argAs with
         | some av2 => bindFormals rest argAs (insertA name (Entry.val (.copy av2)) acc) (used + 1)
         | none =>
           match dflt with
           | some de => bindFormals rest argAs (insertA name (Entry.defer de) acc) used
           | none => Res.error (.missingArgument name)) := rfl
  rw [hu, h]

/-- A formal without a matching actual falls back to its default, bound as
a deferred entry (a thunk over the call environment). -/
theorem bindFormals_default (name : Sym) (de : Expr)
    (rest : List (Sym × Option Expr)) (argAs : List (Sym × Value))
    (acc : List (Sym × Entry)) (used : Nat)
    (h : findA name argAs = none) :
    bindFormals ((name, some de) :: rest) argAs acc used
      = bindFormals rest argAs (insertA name (Entry.defer de) acc) used := by
  have hu : bindFormals ((name, some de) :: rest) argAs acc used
      = (match findA name argAs with
         | some av2 => bindFormals rest argAs (insertA name (Entry.val (.copy av2)) acc) (used + 1)
         | none =>
           match (some de : Option Expr) with
           | some de2 => bindFormals rest argAs (insertA name (Entry.defer de2) acc) used
           | none => Res.error (.missingArgument name)) := rfl
  rw [hu, h]

/-- A formal with neither actual nor default fails with the
missing-argument error. -/
theorem bindFormals_missing (name : Sym)
    (rest : List (Sym × Option Expr)) (argAs : List (Sym × Value))
    (acc : List (Sym × Entry)) (used : Nat)
    (h : findA name argAs = none) :
    bindFormals ((name, none) :: rest) argAs acc used
      = .error (.missingArgument name) := by
  have hu : bindFormals ((name, none) :: rest) argAs acc used
      = (match findA name argAs with
         | some av2 => bindFormals rest argAs (insertA name (Entry.val (.copy av2)) acc) (used + 1)
         | none =>
           match (none : Option Expr) with
           | some de2 => bindFormals rest argAs (insertA name (Entry.defer de2) acc) used
           | none => Res.error (.missingArgument name)) := rfl
  rw [hu, h]

/-- A deferred entry resolves to a thunk over the environment headed by its
own frame, so pattern defaults see their sibling formals. -/
theorem lookupRegular_defer (entries : List (Sym × Entry)) (up : Env)
    (name : Sym) (e : Expr) (h : findA name entries = some (Entry.defer e)) :
    lookupRegular (Env.cons (.plain entries) up) name
      = some (.thunk (Env.cons (.plain entries) up) e) := by
  rw [lookupRegular, h]

/-! C6 helper lemmas -/
/-- Unfolding of the `ConcatStrings` rule: the first component fixes the
path flag, every component is coerced with `coerceMore = false` and
`copyToStore = !isPath`, and a path result with non-empty context is the
path-context error. -/
theorem eval_concat_cons (st : String → String) (f : Nat) (env : Env)
    (e0 : Expr) (rest : List Expr) :
    eval st (f + 1) env (.concatStrings (e0 :: rest)) = (do
      let v0 ← eval st f env e0
      let sc0 ← coerceToString st f v0 [] false (!v0.isPath)
      let sc ← rest.foldlM (concatStep st f env v0.isPath) (sc0.1, sc0.2)
      if v0.isPath then
        if sc.2 = [] then .ok (.path sc.1) else .error (.pathContext sc.1)
      else .ok (.str sc.1 sc.2)) := by
  rw [eval]
  rfl

/-- The `ConcatStrings` rule when the first component evaluates to a path:
the components are coerced with `copyToStore = false`, and the run either
produces a `Path` value or, when the accumulated context is non-empty, the
path-context error. -/
theorem c6_general (st : String → String) (f : Nat) (env : Env) (e0 : Expr)
    (rest : List Expr) (v0 : Value) (s0 s : String) (ctx0 ctx : List String)
    (h1 : eval st f env e0 = .ok v0) (hp : v0.isPath = true)
    (h3 : coerceToString st f v0 [] false false = .ok (s0, ctx0))
    (h4 : rest.foldlM (concatStep st f env true) (s0, ctx0) = .ok (s, ctx)) :
    eval st (f + 1) env (.concatStrings (e0 :: rest)) =
      (if ctx = [] then .ok (.path s) else .error (.pathContext s)) := by
  rw [eval_concat_cons, h1, Res.bind_ok, hp]
  simp only [Bool.not_true, h3, Res.bind_ok, h4]
  cases ctx <;> simp

/-- Coercing a path value with `copyToStore = false` returns the canonical
path, leaves the context untouched, and never consults the store (the store
argument does not occur in the result). -/
theorem coerce_path_nocopy (st : String → String) (f : Nat) (p : String)
    (ctx : List String) (cm : Bool) :
    coerceToString st (f + 1) (.path p) ctx cm false = .ok (canonPath p, ctx) := by
  rw [coerceToString]
  simp [forceValue_path]

/-! ## Claims -/

/-- C1: the claim states that attribute-set equality requires identical key
sets.  Counterexample: `{ a = 1; }` and `{ b = 1; }` have different keys yet
`eqValues` answers `true` — the source compares only `i->second` against
`j->second`, never the keys. -/
theorem c1_counterexample :
    eqValues store0 3 (.attrs [("a", .int 1)]) (.attrs [("b", .int 1)]) = .ok true
    ∧ decide (([("a", Value.int 1)].map Prod.fst)
        = ([("b", Value.int 1)].map Prod.fst)) = false :=
  ⟨rfl, rfl⟩

/-- C1 (amended): equality on two attribute-set values requires equal size
and element-wise equal attribute values in iteration order; the key names
are not compared, so the result is invariant under changing the keys while
keeping the values. -/
theorem c1_theorem :
    (∀ (st : String → String) (f : Nat) (as bs : List (Sym × Value)),
      as.map Prod.snd = bs.map Prod.snd →
      eqValues st f (.attrs as) (.attrs bs) = eqValues st f (.attrs as) (.attrs as))
    ∧ (∀ (st : String → String) (f : Nat) (as bs : List (Sym × Value)),
      eqValues st (f + 1) (.attrs as) (.attrs bs) =
        if as.length = bs.length then
          (as.zip bs).allM (fun pq => eqValues st f pq.1.2 pq.2.2)
        else .ok false) :=
  ⟨eqValues_attrs_keyFree, eqValues_attrs_succ⟩

/-- C1 witness: the amended theorem applied at `{ a = 1; }` / `{ b = 1; }`. -/
theorem c1_witness :
    ([("a", Value.int 1)].map Prod.snd = [("b", Value.int 1)].map Prod.snd)
    ∧ eqValues store0 3 (.attrs [("a", .int 1)]) (.attrs [("b", .int 1)])
      = eqValues store0 3 (.attrs [("a", .int 1)]) (.attrs [("a", .int 1)]) :=
  ⟨rfl, c1_theorem.1 store0 3 [("a", .int 1)] [("b", .int 1)] rfl⟩

/-- C4: name resolution returns the first regular binding of the upward
walk, then consults `with` frames outermost-first, and otherwise fails with
the undefined-variable error (the stated algorithm, as `specLookupVar`);
`with {x=1;}; with {x=2;}; x` yields `1` and `let x = 1; in let x = 2; in x`
yields `2`. -/
theorem c4_theorem :
    (∀ (env : Env) (name : Sym), lookupVar env name = specLookupVar env name)
    ∧ eval store0 20 baseEnv c4WithProg = .ok (.int 1)
    ∧ eval store0 20 baseEnv c4LetProg = .ok (.int 2) := by
  refine ⟨fun env name => ?_, rfl, rfl⟩
  unfold lookupVar specLookupVar
  rw [lookupRegular_spec, lookupWith_spec]

/-- C5: the claim states that a failed force restores the thunk so that a
second force re-evaluates the same pair and reproduces the same failure.
The code restores only the type tag: forcing a thunk over `{ } // q` (with
`q` unbound) fails with the undefined-variable error but leaves the cell
with a thunk tag over an attribute-set payload — the clone step of the
update rule already overwrote the destination — so the second force reads
type-confused thunk fields instead of reproducing the failure.  For a thunk
whose evaluation throws before writing (plain `q`), the restore is exact and
the failure does reproduce, which is the behaviour the claim describes. -/
theorem c5_theorem :
    (cForce 5 c5Cell).err = some (.cUndefinedVar "q")
    ∧ (cForce 5 c5Cell).cell = ⟨.tThunk, .pAttrs []⟩
    ∧ (cForce 5 (cForce 5 c5Cell).cell).err = some .cTypeConfusion
    ∧ (cForce 5 c5Benign).err = some (.cUndefinedVar "q")
    ∧ (cForce 5 c5Benign).cell = c5Benign
    ∧ (cForce 5 (cForce 5 c5Benign).cell).err = some (.cUndefinedVar "q") :=
  ⟨rfl, rfl, rfl, rfl, rfl, rfl⟩

/-- C10: `e ? name` forces `e` to an attribute set and answers exactly
whether `name` is among its keys, never forcing the attribute's value; in
particular `{ x = q; } ? x` is `true` although selecting (and hence forcing)
`x` fails with the undefined-variable error for `q`. -/
theorem c10_theorem :
    (∀ (st : String → String) (f : Nat) (env : Env) (e1 : Expr) (name : Sym)
       (v w : Value) (as : List (Sym × Value)),
      eval st f env e1 = .ok v → forceValue st f v = .ok w → asAttrs w = .ok as →
      eval st (f + 1) env (.opHasAttr e1 name) = .ok (.bool (findA name as).isSome))
    ∧ eval store0 10 baseEnv (.opHasAttr (.attrs [("x", .var "q")]) "x")
        = .ok (.bool true)
    ∧ eval store0 10 baseEnv (.select (.attrs [("x", .var "q")]) "x")
        = .error (.undefinedVariable "q") := by
  refine ⟨?_, rfl, rfl⟩
  intro st f env e1 name v w as h1 h2 h3
  show (do
    let v1 ← eval st f env e1
    let w1 ← forceValue st f v1
    let as1 ← asAttrs w1
    pure (Value.bool (findA name as1).isSome)) = _
  rw [h1, Res.bind_ok, h2, Res.bind_ok, h3, Res.bind_ok, Res.pure_def]

/-- C10 witness: the general rule applied to `{ x = q; } ? x`. -/
theorem c10_witness :
    eval store0 10 baseEnv (.opHasAttr (.attrs [("x", .var "q")]) "x")
      = .ok (.bool (findA "x" [("x", Value.thunk baseEnv (.var "q"))]).isSome) :=
  c10_theorem.1 store0 9 baseEnv (.attrs [("x", .var "q")]) "x"
    (.attrs [("x", .thunk baseEnv (.var "q"))])
    (.attrs [("x", .thunk baseEnv (.var "q"))])
    [("x", .thunk baseEnv (.var "q"))] rfl rfl rfl

/-- C8: the claim states reflexivity for every non-function value.
Counterexample: the singleton list holding a lambda is not itself a function
value, yet comparing it with itself forces the element-wise function
comparison, which is always false. -/
theorem c8_counterexample :
    eqValues store0 3 (.list [funLam]) (.list [funLam]) = .ok false
    ∧ (Value.list [funLam]).isFunction = false :=
  ⟨rfl, rfl⟩

/-- C2: the claim places the omitted separator before an empty-list element.
Counterexample: coercing `[ 1 [] ]` with `coerceMore` yields `"1 "` — the
separator before the trailing empty list is present; the claim's rule
(`specClaimJoin`) predicts `"1"`.  The omission is governed by the element
*preceding* the separator position. -/
theorem c2_counterexample :
    coerceToString store0 4 (.list [.int 1, .list []]) [] true true = .ok ("1 ", [])
    ∧ specClaimJoin [("1", false), ("", true)] = "1"
    ∧ (("1 " : String) == "1") = false :=
  ⟨rfl, rfl, rfl⟩

/-- C2 (amended): with `coerceMore`, a list coerces to the concatenation of
its elements' coercions where a single space follows every element except
the last and except an element that is an empty list — every omitted
separator position immediately follows an empty-list element
(`specAmendedJoin`). -/
theorem c2_theorem :
    (∀ (st : String → String) (f : Nat) (es : List Value) (ctx : List String)
       (cts : Bool) (parts : List (String × Bool)) (ctx2 : List String),
      es.foldlM (coerceStep st f true cts) ([], ctx) = .ok (parts, ctx2) →
      coerceToString st (f + 1) (.list es) ctx true cts = .ok (joinParts parts, ctx2))
    ∧ (∀ parts, joinParts parts = specAmendedJoin parts) := by
  refine ⟨?_, joinParts_spec⟩
  intro st f es ctx cts parts ctx2 hfold
  rw [coerce_list_succ, hfold, Res.bind_ok, Res.pure_def]

/-- C2 witness: the amended rule applied to `[ 1 [] ]`. -/
theorem c2_witness :
    ([Value.int 1, Value.list []].foldlM (coerceStep store0 3 true true) ([], [])
        = .ok ([("1", false), ("", true)], []))
    ∧ coerceToString store0 4 (.list [.int 1, .list []]) [] true true
        = .ok (joinParts [("1", false), ("", true)], []) :=
  ⟨rfl, c2_theorem.1 store0 3 [.int 1, .list []] [] true
    [("1", false), ("", true)] [] rfl⟩

/-- C3: the claim states that `let f = x: f x; in f 1` fails with the
InfiniteRecursion error.  Counterexample: evaluation exhausts every fuel
bound and in particular never produces the infinite-recursion error — the
blackhole check only fires when a cell under evaluation is re-forced, and
this program forces `f`'s thunk once and then recurses through fresh
environments (the C++ original exhausts the host stack). -/
theorem c3_counterexample : DivergesQuietly c3prog := by
  intro fuel
  rw [c3_diverges fuel]
  exact ⟨rfl, rfl⟩

/-- C3 (amended): evaluating `let f = x: f x; in f 1` does not terminate:
it exhausts any fuel bound (the original recurses until the host stack is
exhausted) rather than completing with a value or an error. -/
theorem c3_theorem : NeverFinishes c3prog := c3_diverges

/-- C7: currying of built-ins.  Applying a chain `p a1 ... ak` with more
than one argument remaining yields a `PrimOpApp` whose countdown is
decremented (the extended chain); the final application invokes the primop
on the arguments in the order supplied (leftmost first).  In particular for
a binary primop `p`, applying `p` to `a` and then `b` invokes `p` on
`[a, b]`, which is the meaning of `p a b == (p a) b`. -/
theorem c7_theorem :
    (∀ (st : String → String) (f : Nat) (pid : PrimOpId) (as : List Value)
       (a : Value), as.length + 1 < arityOf pid →
      callFunction st (f + 1) (primChain pid as) a = .ok (primChain pid (as ++ [a])))
    ∧ (∀ (st : String → String) (f : Nat) (pid : PrimOpId) (as : List Value)
       (a : Value), as.length + 1 = arityOf pid →
      callFunction st (f + 1) (primChain pid as) a = applyPrimOp st f pid (as ++ [a]))
    ∧ (∀ (st : String → String) (f : Nat) (pid : PrimOpId) (a b : Value),
      arityOf pid = 2 →
      (do
        let pa ← callFunction st (f + 1) (primChain pid []) a
        callFunction st (f + 1) pa b)
        = applyPrimOp st f pid [a, b]) := by
  refine ⟨c7_extend_aux, c7_invoke_aux, ?_⟩
  intro st f pid a b h2
  rw [c7_extend_aux st f pid [] a (by simp [h2]), Res.bind_ok]
  simp only [List.nil_append]
  rw [c7_invoke_aux st f pid [a] b (by simp [h2])]
  rfl

/-- C8 (amended): equality is reflexive on every value whose strict
forcing succeeds with a function-free result: whenever `strictForceValue`
turns `v` into `w` within some fuel bound and `w` contains no function
value, `v == v` is `true` at the same bound (this covers lists and
attribute sets of unevaluated thunks).  Between two function values `==`
is always `false`, including a function compared with itself — and hence
a value that strictly forces to something containing a function fails
reflexivity (see the counterexample). -/
theorem c8_theorem :
    (∀ (st : String → String) (f : Nat) (v w : Value),
      strictForceValue st f v = .ok w → funcFreeV w = true →
      eqValues st f v v = .ok true)
    ∧ (∀ (st : String → String) (f : Nat) (v1 v2 : Value),
      v1.isFunction = true → v2.isFunction = true →
      eqValues st (f + 1) v1 v2 = .ok false) :=
  ⟨eqValues_refl_strict, eqValues_functions⟩

/-- C8 witness: reflexivity at a list holding an unevaluated integer thunk
(whose strict forcing yields `[1]`), and the function clause at a lambda
compared with itself. -/
theorem c8_witness :
    (strictForceValue store0 4 (.list [.thunk baseEnv (.int 1)])
        = .ok (.list [.int 1])
      ∧ funcFreeV (.list [.int 1]) = true
      ∧ eqValues store0 4 (.list [.thunk baseEnv (.int 1)])
          (.list [.thunk baseEnv (.int 1)]) = .ok true)
    ∧ (funLam.isFunction = true
      ∧ eqValues store0 3 funLam funLam = .ok false) :=
  ⟨⟨rfl, rfl, c8_theorem.1 store0 4 (.list [.thunk baseEnv (.int 1)])
      (.list [.int 1]) rfl rfl⟩,
   ⟨rfl, c8_theorem.2 store0 2 funLam funLam rfl rfl⟩⟩

/-- C9: in attribute-set pattern application, a formal present in the
argument set is bound to a `Copy` indirection to that attribute; an absent
formal with a default is bound as a deferred entry whose lookup yields a
thunk over the new call environment (so defaults see sibling formals); an
absent formal without default fails with the missing-argument error; and
`({ x, y ? add x 1 }: y) { x = 10; }` evaluates to `Int 11`. -/
theorem c9_theorem :
    (∀ (name : Sym) (dflt : Option Expr) (rest : List (Sym × Option Expr))
       (argAs : List (Sym × Value)) (acc : List (Sym × Entry)) (used : Nat)
       (av : Value), findA name argAs = some av →
      bindFormals ((name, dflt) :: rest) argAs acc used
        = bindFormals rest argAs (insertA name (Entry.val (.copy av)) acc) (used + 1))
    ∧ (∀ (name : Sym) (de : Expr) (rest : List (Sym × Option Expr))
       (argAs : List (Sym × Value)) (acc : List (Sym × Entry)) (used : Nat),
      findA name argAs = none →
      bindFormals ((name, some de) :: rest) argAs acc used
        = bindFormals rest argAs (insertA name (Entry.defer de) acc) used)
    ∧ (∀ (name : Sym) (rest : List (Sym × Option Expr))
       (argAs : List (Sym × Value)) (acc : List (Sym × Entry)) (used : Nat),
      findA name argAs = none →
      bindFormals ((name, none) :: rest) argAs acc used
        = .error (.missingArgument name))
    ∧ (∀ (entries : List (Sym × Entry)) (up : Env) (name : Sym) (e : Expr),
      findA name entries = some (Entry.defer e) →
      lookupRegular (Env.cons (.plain entries) up) name
        = some (.thunk (Env.cons (.plain entries) up) e))
    ∧ eval store0 30 baseEnv c9prog = .ok (.int 11) :=
  ⟨bindFormals_present, bindFormals_default, bindFormals_missing,
   lookupRegular_defer, rfl⟩

/-- C9 witness: the four binding rules applied at concrete formals. -/
theorem c9_witness :
    bindFormals [("x", none)] [("x", .int 10)] [] 0
      = bindFormals [] [("x", .int 10)]
          (insertA "x" (Entry.val (.copy (.int 10))) []) 1
    ∧ bindFormals [("y", some (.int 5))] [] [] 0
      = bindFormals [] [] (insertA "y" (Entry.defer (.int 5)) []) 0
    ∧ bindFormals [("z", none)] [] [] 0 = .error (.missingArgument "z")
    ∧ lookupRegular (Env.cons (.plain [("y", Entry.defer (.int 5))]) baseEnv) "y"
      = some (.thunk (Env.cons (.plain [("y", Entry.defer (.int 5))]) baseEnv) (.int 5)) :=
  ⟨c9_theorem.1 "x" none [] [("x", .int 10)] [] 0 (.int 10) rfl,
   c9_theorem.2.1 "y" (.int 5) [] [] [] 0 rfl,
   c9_theorem.2.2.1 "z" [] [] [] 0 rfl,
   c9_theorem.2.2.2.1 [("y", Entry.defer (.int 5))] baseEnv "y" (.int 5) rfl⟩

/-- C6: in string concatenation whose first component evaluates to a
`Path`, every component is coerced with `copyToStore` disabled, a component
contributing a non-empty string context makes the whole expression fail with
the path-context `EvalError`, and otherwise the result is a `Path` value;
coercing a path with `copyToStore = false` yields the canonical path with
the context untouched and a result independent of the store. -/
theorem c6_theorem :
    (∀ (st : String → String) (f : Nat) (env : Env) (e0 : Expr)
       (rest : List Expr) (v0 : Value) (s0 s : String) (ctx0 ctx : List String),
      eval st f env e0 = .ok v0 → v0.isPath = true →
      coerceToString st f v0 [] false false = .ok (s0, ctx0) →
      rest.foldlM (concatStep st f env true) (s0, ctx0) = .ok (s, ctx) →
      eval st (f + 1) env (.concatStrings (e0 :: rest)) =
        (if ctx = [] then .ok (.path s) else .error (.pathContext s)))
    ∧ (∀ (st1 st2 : String → String) (f : Nat) (p : String) (ctx : List String)
       (cm : Bool),
      coerceToString st1 (f + 1) (.path p) ctx cm false = .ok (canonPath p, ctx)
      ∧ coerceToString st1 (f + 1) (.path p) ctx cm false
          = coerceToString st2 (f + 1) (.path p) ctx cm false) :=
  ⟨c6_general,
   fun st1 st2 f p ctx cm =>
    ⟨coerce_path_nocopy st1 f p ctx cm,
     (coerce_path_nocopy st1 f p ctx cm).trans (coerce_path_nocopy st2 f p ctx cm).symm⟩⟩

/-- C6 witness: a successful path concatenation and one failing on a
context-bearing component. -/
theorem c6_witness :
    ((Value.path "/foo/x").isPath = true
      ∧ eval store0 6 baseEnv (.concatStrings [.path "/foo/x", .str "bar"])
          = (if ([] : List String) = [] then .ok (.path "/foo/xbar")
             else .error (.pathContext "/foo/xbar")))
    ∧ eval store0 6 baseEnv
        (.concatStrings [.path "/a", .concatStrings [.str "x", .path "/p"]])
      = (if (["/nix/store/0000-/p"] : List String) = []
         then .ok (.path "/ax/nix/store/0000-/p")
         else .error (.pathContext "/ax/nix/store/0000-/p"))
    ∧ coerceToString store0 6 (.path "/a/./b") ["/q"] false false
      = .ok (canonPath "/a/./b", ["/q"]) :=
  ⟨⟨rfl, c6_theorem.1 store0 5 baseEnv (.path "/foo/x") [.str "bar"]
      (.path "/foo/x") "/foo/x" "/foo/xbar" [] [] rfl rfl rfl rfl⟩,
   c6_theorem.1 store0 5 baseEnv (.path "/a") [.concatStrings [.str "x", .path "/p"]]
      (.path "/a") "/a" "/ax/nix/store/0000-/p" [] ["/nix/store/0000-/p"] rfl rfl rfl rfl,
   (c6_theorem.2 store0 store0 5 "/a/./b" ["/q"] false).1⟩

/-- C7 witness: one partial application of the ternary primop, and the full
binary invocation `add 1 2`, which the registered primop evaluates to `3`. -/
theorem c7_witness :
    (([Value.int 1] : List Value).length + 1 = arityOf .add
      ∧ callFunction store0 5 (primChain .add [.int 1]) (.int 2)
          = applyPrimOp store0 4 .add [.int 1, .int 2])
    ∧ (([] : List Value).length + 1 < arityOf .substring
      ∧ callFunction store0 5 (primChain .substring []) (.int 0)
          = .ok (primChain .substring [.int 0]))
    ∧ applyPrimOp store0 4 .add [.int 1, .int 2] = .ok (.int 3) :=
  ⟨⟨rfl, c7_theorem.2.1 store0 4 .add [.int 1] (.int 2) rfl⟩,
   ⟨by decide, c7_theorem.1 store0 4 .substring [] (.int 0) (by decide)⟩,
   rfl⟩

end NixEval
